import Mathlib

/-
Verification of the mass-attacher core (src/src/mass_attacher.c) against its
natural-language specification.

Shallow embedding conventions:
  * C strings are modelled as List Char (a C string cannot contain NUL, so the
    list holds exactly the bytes before the terminator).  A possibly-NULL
    string argument is modelled as Option (List Char).
  * Machine integers index counts and ids; they stay far below any overflow
    boundary in this code, so they are modelled as Nat (error codes as Int).
  * External collaborators (kernel symbol table, available_filter_functions,
    BTF database, the BPF program loader) are parameters of the model: the
    Env structure for prepare, a cloneFn callback for load.
  * The C while-loop that strips modifier/typedef chains has no bound; it is
    modelled with an explicit fuel argument, where a result of none means the
    C loop has not terminated within that much fuel (and, for a cyclic chain,
    never terminates).
-/

namespace MassAttacher

/-! ## Glob engine (mass_attacher.c lines 175-205, 807-840) -/

/-- Model of strstr(s, key) != NULL: the first branch checks a prefix match at
the current position, otherwise the scan advances one byte, exactly as the C
library routine does. -/
def contains_substr : List Char → List Char → Bool
  | [], key => decide (key = ([] : List Char))
  | a :: rest, key => decide (key <+: a :: rest) || contains_substr rest key

/-- Embedding of glob_matches (lines 807-840), written functionally: the C
code temporarily NUL-terminates the pattern to reuse it as the strstr key;
here the inner slice (glob.drop 1).dropLast is taken directly.  The mutation
itself is made explicit in glob_matches_frame below. -/
def glob_matches (glob s : List Char) : Bool :=
  let n := glob.length
  if n = 1 && decide (glob.headD (Char.ofNat 0) = '*') then
    true
  else if decide (glob.headD (Char.ofNat 0) = '*') && decide (glob.getLastD (Char.ofNat 0) = '*') then
    contains_substr s ((glob.drop 1).dropLast)
  else if decide (glob.headD (Char.ofNat 0) = '*') then
    let nn := s.length
    if nn < n - 1 then false
    else decide (s.drop (nn - (n - 1)) = glob.drop 1)
  else if decide (glob.getLastD (Char.ofNat 0) = '*') then
    decide (s.take (n - 1) = glob.take (n - 1))
  else
    decide (glob = s)

/-- Embedding of glob_matches keeping the in-place buffer mutation explicit:
the pattern buffer is state that is returned together with the result.  In the
substring branch the final star is overwritten with NUL (so that reading the C
string at glob+1 yields the inner slice), strstr runs, and the star is written
back, exactly as in lines 814-823.  The subject buffer is threaded through
unchanged, as no branch of the C code writes to it. -/
def glob_matches_frame (glob s : List Char) : Bool × List Char × List Char :=
  let n := glob.length
  if n = 1 && decide (glob.headD (Char.ofNat 0) = '*') then
    (true, glob, s)
  else if decide (glob.headD (Char.ofNat 0) = '*') && decide (glob.getLastD (Char.ofNat 0) = '*') then
    let glob1 := glob.set (n - 1) (Char.ofNat 0)
    let key := (glob1.drop 1).takeWhile (fun c => !decide (c = Char.ofNat 0))
    let res := contains_substr s key
    let glob2 := glob1.set (n - 1) '*'
    (res, glob2, s)
  else if decide (glob.headD (Char.ofNat 0) = '*') then
    let nn := s.length
    if nn < n - 1 then (false, glob, s)
    else (decide (s.drop (nn - (n - 1)) = glob.drop 1), glob, s)
  else if decide (glob.getLastD (Char.ofNat 0) = '*') then
    (decide (s.take (n - 1) = glob.take (n - 1)), glob, s)
  else
    (decide (glob = s), glob, s)

/-- Embedding of is_valid_glob (lines 175-205).  none models a NULL pointer. -/
def is_valid_glob : Option (List Char) → Bool
  | none => false
  | some g =>
    let n := g.length
    if n = 0 then false
    else if (List.range n).any
        (fun i => decide (g.getD i (Char.ofNat 0) = '*') && decide (i ≠ 0) && decide (i ≠ n - 1)) then
      false
    else if decide (g = ['*', '*']) then false
    else true

/-! ## Data model: rules, options, attacher state (lines 41-103) -/

/-- MAX_FUNC_ARG_CNT (line 63). -/
def MAX_FUNC_ARG_CNT : Nat := 11

/-- One allow/deny rule: the owned pattern plus its match counter
(anonymous struct at lines 99-102). -/
structure GlobRule where
  glob : List Char
  matched : Nat
deriving DecidableEq

/-- The skeleton template is opaque to the claims; only the shared ready flag
is represented. -/
structure Skel where
  ready : Bool := false
deriving DecidableEq

/-- Identity of one template (prototype) BPF program: the fields the clone
call copies from it (bpf_program__get_type, __get_expected_attach_type,
__name, lines 650-652). -/
structure Proto where
  prog_type : Nat := 0
  expected_attach_type : Nat := 0
  name : List Char := []
deriving DecidableEq

/-- struct mass_attacher_func_info: one attach entry. -/
structure FuncInfo where
  addr : Nat
  name : List Char
  arg_cnt : Nat
  btf_id : Nat
  fentry_prog_fd : Int := 0
  fexit_prog_fd : Int := 0
deriving DecidableEq

/-- struct mass_attacher_opts.  The func_filter predicate receives the BTF
type id, the function name and the number of functions accepted so far. -/
structure Opts where
  max_func_cnt : Nat := 0
  max_fileno_rlimit : Nat := 0
  verbose : Bool := false
  debug : Bool := false
  debug_extra : Bool := false
  func_filter : Option (Nat → List Char → Nat → Bool) := none

/-- struct mass_attacher (lines 69-103).  The per-arity arrays are modelled
as functions from the arity; func_cnt is the length of func_infos. -/
structure Att where
  skel : Skel
  fentries : Nat → Proto := fun _ => {}
  fexits : Nat → Proto := fun _ => {}
  fentries_insns : Nat → List Nat := fun _ => []
  fexits_insns : Nat → List Nat := fun _ => []
  fentries_insn_cnts : Nat → Nat := fun _ => 0
  fexits_insn_cnts : Nat → Nat := fun _ => 0
  verbose : Bool := false
  debug : Bool := false
  debug_extra : Bool := false
  max_func_cnt : Nat := 0
  max_fileno_rlimit : Nat := 0
  func_filter : Option (Nat → List Char → Nat → Bool) := none
  func_infos : List FuncInfo := []
  func_info_cnts : Nat → Nat := fun _ => 0
  func_info_id_for_arg_cnt : Nat → Nat := fun _ => 0
  allow_globs : List GlobRule := []
  deny_globs : List GlobRule := []

/-- calloc(1, sizeof(*att)) with the skeleton stored (lines 113-117). -/
def att_zero (sk : Skel) : Att := { skel := sk }

/-- enforced_deny_globs (lines 41-61), in array order. -/
def enforced_deny_globs : List (List Char) :=
  ["bpf_get_smp_processor_id".toList,
   "migrate_enable".toList,
   "migrate_disable".toList,
   "rcu_read_lock*".toList,
   "rcu_read_unlock*".toList,
   "__bpf_prog_enter*".toList,
   "__bpf_prog_exit*".toList,
   "*_sys_select".toList,
   "*_sys_epoll_wait".toList,
   "*_sys_ppoll".toList]

/-- mass_attacher__allow_glob (lines 207-228); -22 is -EINVAL.  Allocation
failure (-ENOMEM) is not modelled.  Returns the C result code together with
the attacher state after the call. -/
def mass_attacher__allow_glob (att : Att) (glob : Option (List Char)) : Int × Att :=
  if is_valid_glob glob = false then (-22, att)
  else (0, { att with allow_globs := att.allow_globs ++ [{ glob := glob.getD [], matched := 0 }] })

/-- mass_attacher__deny_glob (lines 230-252). -/
def mass_attacher__deny_glob (att : Att) (glob : Option (List Char)) : Int × Att :=
  if is_valid_glob glob = false then (-22, att)
  else (0, { att with deny_globs := att.deny_globs ++ [{ glob := glob.getD [], matched := 0 }] })

/-- The loop at lines 131-139 of mass_attacher__new: install every enforced
deny glob; a nonzero result frees the attacher and returns NULL. -/
def install_enforced : Att → List (List Char) → Option Att
  | att, [] => some att
  | att, g :: rest =>
    let r := mass_attacher__deny_glob att (some g)
    if r.1 = 0 then install_enforced r.2 rest else none

/-- mass_attacher__new (lines 105-142).  Note the early return at lines
119-120: with a NULL opts pointer the function returns before the enforced
deny globs are installed. -/
def mass_attacher__new (skel : Option Skel) (opts : Option Opts) : Option Att :=
  match skel with
  | none => none
  | some sk =>
    let att := att_zero sk
    match opts with
    | none => some att
    | some o =>
      let att := { att with
        max_func_cnt := o.max_func_cnt,
        max_fileno_rlimit := o.max_fileno_rlimit,
        verbose := o.verbose || o.debug,
        debug := o.debug,
        debug_extra := o.debug_extra,
        func_filter := o.func_filter }
      install_enforced att enforced_deny_globs

/-! ## BTF model and the type compatibility check (lines 735-805) -/

/-- The BTF kinds this code distinguishes.  modifier covers const, volatile
and restrict (btf_is_mod). -/
inductive btf_type where
  | void
  | intK
  | ptr (type : Nat)
  | enumK
  | structK
  | unionK
  | modifier (type : Nat)
  | typedefK (type : Nat)
  | funcK (type : Nat)
  | func_proto (ret : Nat) (params : List Nat)
  | otherK
deriving DecidableEq

/-- The generic type reference field of struct btf_type (t->type). -/
def btf_type.typ : btf_type → Nat
  | .ptr t | .modifier t | .typedefK t | .funcK t => t
  | .func_proto r _ => r
  | _ => 0

def btf_is_mod : btf_type → Bool
  | .modifier _ => true
  | _ => false

def btf_is_typedef : btf_type → Bool
  | .typedefK _ => true
  | _ => false

def btf_is_int : btf_type → Bool
  | .intK => true
  | _ => false

def btf_is_ptr : btf_type → Bool
  | .ptr _ => true
  | _ => false

def btf_is_enum : btf_type → Bool
  | .enumK => true
  | _ => false

def btf_is_composite : btf_type → Bool
  | .structK | .unionK => true
  | _ => false

def btf_is_func : btf_type → Bool
  | .funcK _ => true
  | _ => false

/-- btf_vlen on a FUNC_PROTO: number of formal parameters. -/
def btf_vlen : btf_type → Nat
  | .func_proto _ ps => ps.length
  | _ => 0

/-- btf_params on a FUNC_PROTO: the parameter type ids in order (a vararg
marker is type id 0). -/
def btf_params : btf_type → List Nat
  | .func_proto _ ps => ps
  | _ => []

/-- The while loop shared by is_arg_type_ok and is_ret_type_ok (lines 746-747
and 755-756): follow modifier/typedef chains to the underlying type.  The C
loop has no bound, so the model takes fuel; none means the loop has not left
the chain after that many dereferences. -/
def strip_mod_typedef (db : Nat → btf_type) (fuel : Nat) (t : btf_type) : Option btf_type :=
  if btf_is_mod t || btf_is_typedef t then
    match fuel with
    | 0 => none
    | fuel' + 1 => strip_mod_typedef db fuel' (db t.typ)
  else some t

/-- is_arg_type_ok (lines 744-751). -/
def is_arg_type_ok (db : Nat → btf_type) (fuel : Nat) (t : btf_type) : Option Bool :=
  match strip_mod_typedef db fuel t with
  | none => none
  | some u =>
    if !btf_is_int u && !btf_is_ptr u && !btf_is_enum u then some false
    else some true

/-- is_ret_type_ok (lines 753-775). -/
def is_ret_type_ok (db : Nat → btf_type) (fuel : Nat) (t : btf_type) : Option Bool :=
  match strip_mod_typedef db fuel t with
  | none => none
  | some u =>
    if btf_is_int u || btf_is_enum u then some true
    else if !btf_is_ptr u then some false
    else if u.typ = 0 then some true
    else if !btf_is_composite (db u.typ) then some false
    else some true

/-- The parameter loop of is_func_type_ok (lines 793-802). -/
def func_params_ok (db : Nat → btf_type) (fuel : Nat) : List Nat → Option Bool
  | [] => some true
  | pid :: rest =>
    if pid = 0 then some false
    else match is_arg_type_ok db fuel (db pid) with
      | none => none
      | some false => some false
      | some true => func_params_ok db fuel rest

/-- is_func_type_ok (lines 777-805); t is the FUNC entry, whose type field
points at the FUNC_PROTO. -/
def is_func_type_ok (db : Nat → btf_type) (fuel : Nat) (t : btf_type) : Option Bool :=
  let p := db t.typ
  if btf_vlen p > MAX_FUNC_ARG_CNT then some false
  else if p.typ = 0 then some false
  else match is_ret_type_ok db fuel (db p.typ) with
    | none => none
    | some false => some false
    | some true => func_params_ok db fuel (btf_params p)

/-- func_arg_cnt (lines 735-742). -/
def func_arg_cnt (db : Nat → btf_type) (id : Nat) : Nat :=
  btf_vlen (db (db id).typ)

/-! ## Filter resolution inside prepare (lines 351-377) -/

/-- One scan of a rule array: the first rule whose glob matches has its
counter incremented and the scan stops (the C code breaks out with goto);
none means no rule matched (loop fell through). -/
def scan_globs : List GlobRule → List Char → Option (List GlobRule)
  | [], _ => none
  | r :: rest, name =>
    if glob_matches r.glob name then some ({ r with matched := r.matched + 1 } :: rest)
    else match scan_globs rest name with
      | some rest' => some (r :: rest')
      | none => none

/-- The deny/allow resolution for one candidate name (lines 351-377): any
deny match rejects; otherwise, if any allow rule exists, some allow rule must
match; otherwise the default is accept.  Returns (accepted, denies, allows)
with the updated counters. -/
def filter_resolve (denies allows : List GlobRule) (name : List Char) : Bool × List GlobRule × List GlobRule :=
  match scan_globs denies name with
  | some denies' => (false, denies', allows)
  | none =>
    if allows.length ≠ 0 then
      match scan_globs allows name with
      | some allows' => (true, denies, allows')
      | none => (false, denies, allows)
    else (true, denies, allows)

/-! ## The prepare pass over the type database (lines 264-473) -/

/-- The external inputs of mass_attacher__prepare: the BTF type database
(btf__get_nr_types / btf__type_by_id / btf__str_by_offset), the kallsyms
index (ksyms__get_symbol, returning the symbol address) and the sorted
available_filter_functions set (is_kprobe_ok). -/
structure Env where
  nr_types : Nat
  type_by_id : Nat → btf_type
  name_of : Nat → List Char
  ksym_addr : List Char → Option Nat
  kprobe_ok : List Char → Bool

/-- Acceptance of one function (lines 406-425): append the func_info record,
bump the arity bucket counter, and record the bucket's representative index
only while it is still 0 (the calloc default). -/
def accept_func (att : Att) (id addr : Nat) (fname : List Char) (ac : Nat) : Att :=
  { att with
    func_infos := att.func_infos ++ [{ addr := addr, name := fname, arg_cnt := ac, btf_id := id }],
    func_info_cnts := fun k => if k = ac then att.func_info_cnts ac + 1 else att.func_info_cnts k,
    func_info_id_for_arg_cnt :=
      if att.func_info_id_for_arg_cnt ac = 0 then
        fun k => if k = ac then att.func_infos.length else att.func_info_id_for_arg_cnt k
      else att.func_info_id_for_arg_cnt }

/-- One iteration of the candidate loop of mass_attacher__prepare (lines
332-429) for type id i.  Checks appear in source order: FUNC kind, kallsyms
lookup, deny/allow filter, attachable-kprobe membership, ABI compatibility,
max_func_cnt cut-off (the C break, reported as the Bool true), custom
func_filter.  none means an ABI check diverged (unbounded modifier/typedef
chain). -/
def prepare_step (env : Env) (fuel : Nat) (att : Att) (i : Nat) : Option (Bool × Att) :=
  let t := env.type_by_id i
  if !btf_is_func t then some (false, att)
  else
    let fname := env.name_of i
    match env.ksym_addr fname with
    | none => some (false, att)
    | some addr =>
      let fr := filter_resolve att.deny_globs att.allow_globs fname
      let att1 := { att with deny_globs := fr.2.1, allow_globs := fr.2.2 }
      if !fr.1 then some (false, att1)
      else if !env.kprobe_ok fname then some (false, att1)
      else match is_func_type_ok (env.type_by_id) fuel t with
        | none => none
        | some false => some (false, att1)
        | some true =>
          if att1.max_func_cnt ≠ 0 ∧ att1.func_infos.length ≥ att1.max_func_cnt then
            some (true, att1)
          else if (match att1.func_filter with
                   | some flt => !flt i fname att1.func_infos.length
                   | none => false) then some (false, att1)
          else some (false, accept_func att1 i addr fname (func_arg_cnt (env.type_by_id) i))

/-- The candidate loop over the list of BTF type ids; the Bool true from a
step is the C break that ends the loop early. -/
def prepare_pass (env : Env) (fuel : Nat) : Att → List Nat → Option Att
  | att, [] => some att
  | att, i :: rest =>
    match prepare_step env fuel att i with
    | none => none
    | some (true, att') => some att'
    | some (false, att') => prepare_pass env fuel att' rest

/-- mass_attacher__prepare after its external loads succeeded: run the
candidate loop over type ids 1..nr_types, then fail with -ENOENT (-2) when
no function was accepted (lines 431-434).  The template re-targeting and
autoload toggling of lines 436-452 call into libbpf and do not change the
attacher state modelled here. -/
def mass_attacher__prepare (env : Env) (fuel : Nat) (att : Att) : Option (Except Int Att) :=
  match prepare_pass env fuel att (List.range' 1 env.nr_types) with
  | none => none
  | some att' =>
    if att'.func_infos.length = 0 then some (Except.error (-2))
    else some (Except.ok att')

/-! ## The load phase and program cloning (lines 581-663) -/

/-- The attribute block one clone_prog call passes to the kernel
(lines 642-663). -/
structure CloneCall where
  prog_type : Nat
  expected_attach_type : Nat
  name : List Char
  insns : List Nat
  insns_cnt : Nat
  license : List Char
  attach_btf_id : Nat
deriving DecidableEq

/-- clone_prog (lines 642-663): build the load attributes from the prototype
program, the captured bytecode and the per-function attach BTF id, and invoke
the kernel loader (modelled by cloneFn; a negative result is the -errno
failure).  Returns the fd and the attribute block that was submitted. -/
def clone_prog (cloneFn : CloneCall → Int) (prog : Proto) (insns : List Nat)
    (insn_cnt : Nat) (attach_btf_id : Nat) : Int × CloneCall :=
  let attr : CloneCall := {
    prog_type := prog.prog_type,
    expected_attach_type := prog.expected_attach_type,
    name := prog.name,
    insns := insns,
    insns_cnt := insn_cnt,
    license := "Dual BSD/GPL".toList,
    attach_btf_id := attach_btf_id }
  (cloneFn attr, attr)

/-- The per-entry loop of mass_attacher__load (lines 605-638): for each
attach entry clone the fentry then the fexit prototype of its arity, storing
the fds; any clone failure aborts the phase with that error.  The ip_to_id
map update is a kernel call that does not affect the state modelled here.
The call trace is returned for the accounting claims. -/
def load_loop (att : Att) (cloneFn : CloneCall → Int) :
    List FuncInfo → Except Int (List FuncInfo × List CloneCall)
  | [] => Except.ok ([], [])
  | f :: rest =>
    let r1 := clone_prog cloneFn (att.fentries f.arg_cnt) (att.fentries_insns f.arg_cnt)
      (att.fentries_insn_cnts f.arg_cnt) f.btf_id
    if r1.1 < 0 then Except.error r1.1
    else
      let r2 := clone_prog cloneFn (att.fexits f.arg_cnt) (att.fexits_insns f.arg_cnt)
        (att.fexits_insn_cnts f.arg_cnt) f.btf_id
      if r2.1 < 0 then Except.error r2.1
      else match load_loop att cloneFn rest with
        | Except.ok (fs, calls) =>
          Except.ok ({ f with fentry_prog_fd := r1.1, fexit_prog_fd := r2.1 } :: fs,
                     r1.2 :: r2.2 :: calls)
        | Except.error e => Except.error e

/-- mass_attacher__load after the skeleton load (during which hijack_prog
captured the per-arity bytecode into fentries_insns/fexits_insns): run the
clone loop over the attach entries. -/
def mass_attacher__load (att : Att) (cloneFn : CloneCall → Int) :
    Except Int (Att × List CloneCall) :=
  match load_loop att cloneFn att.func_infos with
  | Except.ok (fs, calls) => Except.ok ({ att with func_infos := fs }, calls)
  | Except.error e => Except.error e

/-! ## Glob engine lemmas and theorems (claims C3, C4, C10) -/

lemma contains_substr_eq (s key : List Char) :
    contains_substr s key = decide (key <:+: s) := by
  induction s with
  | nil =>
    show decide (key = ([] : List Char)) = decide (key <:+: [])
    rw [decide_eq_decide]
    exact List.infix_nil.symm
  | cons a rest ih =>
    show (decide (key <+: a :: rest) || contains_substr rest key) = decide (key <:+: a :: rest)
    rw [ih]
    have : decide (key <+: a :: rest ∨ key <:+: rest)
        = (decide (key <+: a :: rest) || decide (key <:+: rest)) := by
      by_cases hp : key <+: a :: rest <;> by_cases hq : key <:+: rest <;> simp [hp, hq]
    rw [← this, decide_eq_decide]
    exact List.infix_cons_iff.symm

lemma suffix_branch_eq (l s : List Char) :
    (if s.length < l.length then false
     else decide (s.drop (s.length - l.length) = l)) = decide (l <:+ s) := by
  by_cases hlt : s.length < l.length
  · rw [if_pos hlt]
    have : ¬ (l <:+ s) := fun hsuf => absurd hsuf.length_le (by omega)
    simp [this]
  · rw [if_neg hlt, decide_eq_decide, List.suffix_iff_eq_drop]
    exact eq_comm

lemma prefix_branch_eq (g s : List Char) :
    decide (s.take (g.length - 1) = g.take (g.length - 1)) = decide (g.dropLast <+: s) := by
  rw [decide_eq_decide, List.prefix_iff_eq_take, List.length_dropLast, List.dropLast_eq_take]
  exact eq_comm

lemma getLastD_getD (l : List Char) (d : Char) : l.getLastD d = (l.getLast?).getD d := by
  cases l <;> simp [List.getLastD_eq_getLast?]

/-- C3: for every validated glob pattern and every subject, glob_matches is:
always true for "*"; substring containment of the inner slice when the first
and last characters are both stars; suffix match when only the first is a
star; prefix match when only the last is a star; byte-exact equality
otherwise. -/
theorem C3_glob_matches_cases (glob s : List Char)
    (hv : is_valid_glob (some glob) = true) :
    glob_matches glob s =
      (if glob = ['*'] then true
       else if glob.head? = some '*' ∧ glob.getLast? = some '*' then
         decide ((glob.drop 1).dropLast <:+: s)
       else if glob.head? = some '*' then decide (glob.drop 1 <:+ s)
       else if glob.getLast? = some '*' then decide (glob.dropLast <+: s)
       else decide (glob = s)) := by
  have hg : glob ≠ [] := by
    intro he
    rw [he] at hv
    simp [is_valid_glob] at hv
  match glob, hg with
  | [a], _ =>
    by_cases ca : a = '*'
    · subst ca
      simp [glob_matches]
    · have e5 : [a].getLastD (Char.ofNat 0) = a := by
        rw [getLastD_getD]
        rfl
      have h1 : ¬ ([a] = ['*']) := by simp [ca]
      have h2 : ¬ ([a].head? = some '*') := by simp [ca]
      have hc2 : ¬ ([a].head? = some '*' ∧ [a].getLast? = some '*') := fun hc => h2 hc.1
      have h3 : ¬ ([a].getLast? = some '*') := by simp [ca]
      rw [glob_matches]
      simp only [List.headD_cons, e5, List.length_singleton]
      rw [if_neg (by simp [ca]), if_neg (by simp [ca]), if_neg (by simp [ca]),
        if_neg (by simp [ca])]
      rw [if_neg h1, if_neg hc2, if_neg h2, if_neg h3]
  | a :: b :: t, _ =>
    obtain ⟨z, hz⟩ : ∃ z, (b :: t).getLast? = some z :=
      ⟨_, List.getLast?_eq_getLast _ (by simp)⟩
    have e4 : (a :: b :: t).getLast? = some z := by
      rw [List.getLast?_cons_cons, hz]
    have e5 : (a :: b :: t).getLastD (Char.ofNat 0) = z := by
      rw [getLastD_getD, e4]
      rfl
    have hlen : ¬ ((a :: b :: t).length = 1) := by simp
    have hne1 : ¬ (a :: b :: t = ['*']) := by simp
    have hdrop : (a :: b :: t).drop 1 = b :: t := rfl
    have hlen1 : (a :: b :: t).length - 1 = (b :: t).length := by simp
    by_cases ca : a = '*' <;> by_cases cz : z = '*'
    · -- head and last both '*': substring containment of the inner slice
      have hc2 : (a :: b :: t).head? = some '*' ∧ (a :: b :: t).getLast? = some '*' :=
        ⟨by simp [ca], by rw [e4, cz]⟩
      rw [glob_matches]
      simp only [List.headD_cons, e5, hdrop]
      rw [if_neg (by simp [hlen]), if_pos (by simp [ca, cz])]
      rw [if_neg hne1, if_pos hc2]
      exact contains_substr_eq s _
    · -- head '*' only: suffix match
      have hc2 : ¬ ((a :: b :: t).head? = some '*' ∧ (a :: b :: t).getLast? = some '*') :=
        fun hc => cz (by rw [e4] at hc; exact Option.some.inj hc.2)
      have hc3 : (a :: b :: t).head? = some '*' := by simp [ca]
      rw [glob_matches]
      simp only [List.headD_cons, e5, hdrop, hlen1]
      rw [if_neg (by simp [hlen]), if_neg (by simp [cz]), if_pos (by simp [ca])]
      rw [if_neg hne1, if_neg hc2, if_pos hc3]
      exact suffix_branch_eq (b :: t) s
    · -- last '*' only: prefix match
      have hc2 : ¬ ((a :: b :: t).head? = some '*' ∧ (a :: b :: t).getLast? = some '*') :=
        fun hc => ca (Option.some.inj hc.1)
      have hc3 : ¬ ((a :: b :: t).head? = some '*') := fun hc => ca (Option.some.inj hc)
      have hc4 : (a :: b :: t).getLast? = some '*' := by rw [e4, cz]
      rw [glob_matches]
      simp only [List.headD_cons, e5]
      rw [if_neg (by simp [ca]), if_neg (by simp [ca]), if_neg (by simp [ca]),
        if_pos (by simp [cz])]
      rw [if_neg hne1, if_neg hc2, if_neg hc3, if_pos hc4]
      exact prefix_branch_eq (a :: b :: t) s
    · -- neither end '*': exact equality
      have hc2 : ¬ ((a :: b :: t).head? = some '*' ∧ (a :: b :: t).getLast? = some '*') :=
        fun hc => ca (Option.some.inj hc.1)
      have hc3 : ¬ ((a :: b :: t).head? = some '*') := fun hc => ca (Option.some.inj hc)
      have hc4 : ¬ ((a :: b :: t).getLast? = some '*') :=
        fun hc => cz (by rw [e4] at hc; exact Option.some.inj hc)
      rw [glob_matches]
      simp only [List.headD_cons, e5]
      rw [if_neg (by simp [ca]), if_neg (by simp [ca]), if_neg (by simp [ca]),
        if_neg (by simp [cz])]
      rw [if_neg hne1, if_neg hc2, if_neg hc3, if_neg hc4]

/-- Witness for C3 at the spec's own example, pattern "*abc*" against
subject "ababc". -/
theorem C3_witness :
    glob_matches ("*abc*".toList) ("ababc".toList) =
      (if "*abc*".toList = ['*'] then true
       else if ("*abc*".toList).head? = some '*' ∧ ("*abc*".toList).getLast? = some '*' then
         decide ((("*abc*".toList).drop 1).dropLast <:+: ("ababc".toList))
       else if ("*abc*".toList).head? = some '*' then
         decide (("*abc*".toList).drop 1 <:+ ("ababc".toList))
       else if ("*abc*".toList).getLast? = some '*' then
         decide (("*abc*".toList).dropLast <+: ("ababc".toList))
       else decide ("*abc*".toList = "ababc".toList)) :=
  C3_glob_matches_cases ("*abc*".toList) ("ababc".toList) (by decide)

lemma set_last_self (l : List Char) (z : Char) (hz : l.getLast? = some z) :
    l.set (l.length - 1) z = l := by
  induction l with
  | nil => cases hz
  | cons a t ih =>
    cases t with
    | nil =>
      cases hz
      rfl
    | cons b u =>
      have hz' : (b :: u).getLast? = some z := by
        rw [← hz]
        rfl
      have : (a :: b :: u).length - 1 = ((b :: u).length - 1) + 1 := by simp
      rw [this]
      show a :: (b :: u).set ((b :: u).length - 1) z = a :: b :: u
      rw [ih hz']

/-- C10: glob_matches restores the pattern buffer before returning.  The
substring branch overwrites the final star with NUL for the strstr call, but
writes the star back; every other branch leaves the buffer untouched, and no
branch writes to the subject buffer. -/
theorem C10_glob_matches_frame (glob s : List Char) :
    (glob_matches_frame glob s).2.1 = glob ∧ (glob_matches_frame glob s).2.2 = s := by
  simp only [glob_matches_frame]
  cases hb1 : (decide (glob.length = 1) && decide (glob.headD (Char.ofNat 0) = '*')) with
  | true => simp [hb1]
  | false =>
    cases hb2 : (decide (glob.headD (Char.ofNat 0) = '*')
        && decide (glob.getLastD (Char.ofNat 0) = '*')) with
    | true =>
      simp only [hb1, hb2, Bool.false_eq_true, if_false, if_true]
      refine ⟨?_, by trivial⟩
      rw [List.set_set]
      have hc := (Bool.and_eq_true _ _).mp hb2
      have hg : glob ≠ [] := by
        intro he
        subst he
        have : decide (([] : List Char).headD (Char.ofNat 0) = '*') = false := by decide
        rw [this] at hc
        cases hc.1
      apply set_last_self
      have hlast : glob.getLastD (Char.ofNat 0) = '*' := of_decide_eq_true hc.2
      rw [getLastD_getD, List.getLast?_eq_getLast glob hg] at hlast
      have hlast' : glob.getLast hg = '*' := hlast
      rw [List.getLast?_eq_getLast glob hg, hlast']
    | false =>
      cases hb3 : decide (glob.headD (Char.ofNat 0) = '*') with
      | true =>
        by_cases hb4 : s.length < glob.length - 1
        · simp [hb1, hb2, hb3, hb4]
        · simp [hb1, hb2, hb3, hb4]
      | false =>
        cases hb5 : decide (glob.getLastD (Char.ofNat 0) = '*') with
        | true => simp [hb1, hb2, hb3, hb5]
        | false => simp [hb1, hb2, hb3, hb5]

/-- C4: glob validation accepts exactly the non-null, non-empty patterns in
which every star sits at position 0 or at the last position, except the
literal "**"; the spec's example patterns evaluate as listed; and allow_glob
and deny_glob return -EINVAL without adding any rule when validation fails. -/
theorem C4_glob_validation :
    (∀ og : Option (List Char), is_valid_glob og = true ↔
        ∃ g, og = some g ∧ g ≠ [] ∧
          (∀ i, i < g.length → g.getD i (Char.ofNat 0) = '*' → i = 0 ∨ i = g.length - 1) ∧
          g ≠ ['*', '*']) ∧
    (is_valid_glob (some "*".toList) = true ∧ is_valid_glob (some "*x".toList) = true ∧
     is_valid_glob (some "x*".toList) = true ∧ is_valid_glob (some "*x*".toList) = true ∧
     is_valid_glob (some "x".toList) = true) ∧
    (is_valid_glob none = false ∧ is_valid_glob (some "".toList) = false ∧
     is_valid_glob (some "**".toList) = false ∧ is_valid_glob (some "a*b".toList) = false) ∧
    (∀ att og, is_valid_glob og = false →
        mass_attacher__allow_glob att og = (-22, att) ∧
        mass_attacher__deny_glob att og = (-22, att)) := by
  refine ⟨?_, by decide, by decide, ?_⟩
  · intro og
    cases og with
    | none => simp [is_valid_glob]
    | some g =>
      rw [is_valid_glob]
      by_cases h0 : g.length = 0
      · rw [if_pos h0]
        have : g = [] := List.length_eq_zero.mp h0
        subst this
        simp
      · rw [if_neg h0]
        by_cases hAny : (List.range g.length).any
            (fun i => decide (g.getD i (Char.ofNat 0) = '*') && decide (i ≠ 0)
              && decide (i ≠ g.length - 1)) = true
        · rw [if_pos hAny]
          simp only [List.any_eq_true, List.mem_range, Bool.and_eq_true,
            decide_eq_true_eq] at hAny
          obtain ⟨i, hi, ⟨hstar, hne0⟩, hneL⟩ := hAny
          constructor
          · intro hfalse
            cases hfalse
          · rintro ⟨g', hgg, -, hpos, -⟩
            cases hgg
            rcases hpos i hi hstar with h | h
            · exact absurd h hne0
            · exact absurd h hneL
        · rw [if_neg hAny]
          simp only [List.any_eq_true, List.mem_range, Bool.and_eq_true,
            decide_eq_true_eq, not_exists, not_and] at hAny
          by_cases hss : g = ['*', '*']
          · rw [if_pos (by simp [hss])]
            constructor
            · intro hfalse
              cases hfalse
            · rintro ⟨g', hgg, -, -, hne⟩
              cases hgg
              exact absurd hss hne
          · rw [if_neg (by simp [hss])]
            constructor
            · intro _h
              refine ⟨g, rfl, fun he => h0 (by rw [he]; rfl), ?_, hss⟩
              intro i hi hstar
              by_contra hcon
              push_neg at hcon
              exact (hAny i hi ⟨hstar, hcon.1⟩) hcon.2
            · intro _h
              rfl
  · intro att og h
    constructor
    · rw [mass_attacher__allow_glob, if_pos h]
    · rw [mass_attacher__deny_glob, if_pos h]

/-- Witness for C4: the invalid pattern "a*b" is rejected by allow_glob and
deny_glob, leaving the attacher unchanged. -/
theorem C4_witness :
    mass_attacher__allow_glob (att_zero {}) (some ("a*b".toList)) = (-22, att_zero {}) ∧
    mass_attacher__deny_glob (att_zero {}) (some ("a*b".toList)) = (-22, att_zero {}) :=
  C4_glob_validation.2.2.2 (att_zero {}) (some ("a*b".toList)) (by decide)

/-! ## Enforced deny installation (claim C1) -/

/-- The attacher state mass_attacher__new produces when both the skeleton and
the options pointer are non-null. -/
def att_after_new (sk : Skel) (o : Opts) : Att :=
  { att_zero sk with
    max_func_cnt := o.max_func_cnt,
    max_fileno_rlimit := o.max_fileno_rlimit,
    verbose := o.verbose || o.debug,
    debug := o.debug,
    debug_extra := o.debug_extra,
    func_filter := o.func_filter,
    deny_globs := enforced_deny_globs.map (fun g => { glob := g, matched := 0 }) }

lemma new_some_some (sk : Skel) (o : Opts) :
    mass_attacher__new (some sk) (some o) = some (att_after_new sk o) := rfl

/-- C1 (amended): with a non-null skeleton and a NON-NULL options pointer,
mass_attacher__new returns an attacher whose deny list consists of exactly
the ten enforced deny globs in array order with zeroed counters, whose allow
list is empty, and any valid user deny rule added afterwards is appended
after the ten. -/
theorem C1_new_installs_enforced_denies (sk : Skel) (o : Opts) (att : Att)
    (h : mass_attacher__new (some sk) (some o) = some att) :
    att.deny_globs.map (fun r => r.glob) = enforced_deny_globs ∧
    att.deny_globs.map (fun r => r.matched) = List.replicate 10 0 ∧
    att.allow_globs = [] ∧
    (∀ g : List Char, is_valid_glob (some g) = true →
        (mass_attacher__deny_glob att (some g)).2.deny_globs.map (fun r => r.glob)
          = enforced_deny_globs ++ [g]) := by
  rw [new_some_some] at h
  have hatt : att = att_after_new sk o := (Option.some.inj h).symm
  subst hatt
  refine ⟨rfl, rfl, rfl, ?_⟩
  intro g hvg
  rw [mass_attacher__deny_glob, if_neg (by rw [hvg]; intro hc; cases hc)]
  rfl

/-- Counterexample to C1 as stated: when no options are supplied (NULL opts),
mass_attacher__new returns before installing any deny rule, so the deny list
is empty rather than holding the ten enforced globs. -/
theorem C1_counterexample :
    (mass_attacher__new (some {}) none).map (fun a => a.deny_globs.length) = some 0 := rfl

/-- Witness for C1 at concrete inputs (default skeleton and options). -/
theorem C1_witness :
    (att_after_new {} {}).deny_globs.map (fun r => r.glob) = enforced_deny_globs :=
  (C1_new_installs_enforced_denies {} {} (att_after_new {} {}) (new_some_some {} {})).1

/-! ## Filter resolution (claim C2) -/

/-- Index of the first rule whose glob matches the name, in insertion
order. -/
def first_match_idx : List GlobRule → List Char → Option Nat
  | [], _ => none
  | r :: rest, name =>
    if glob_matches r.glob name then some 0
    else (first_match_idx rest name).map (fun i => i + 1)

/-- Increment the match counter of the rule at the given index. -/
def inc_at : List GlobRule → Nat → List GlobRule
  | [], _ => []
  | r :: rest, 0 => { r with matched := r.matched + 1 } :: rest
  | r :: rest, i + 1 => r :: inc_at rest i

/-- Sum of all match counters of a rule list. -/
def total_matched (rules : List GlobRule) : Nat := (rules.map (fun r => r.matched)).sum

lemma scan_globs_eq (rules : List GlobRule) (name : List Char) :
    scan_globs rules name = (first_match_idx rules name).map (fun i => inc_at rules i) := by
  induction rules with
  | nil => rfl
  | cons r rest ih =>
    rw [scan_globs, first_match_idx]
    by_cases hm : glob_matches r.glob name
    · rw [if_pos hm, if_pos hm]
      rfl
    · rw [if_neg hm, if_neg hm, ih]
      cases first_match_idx rest name with
      | none => rfl
      | some i => rfl

lemma first_match_idx_none_iff (rules : List GlobRule) (name : List Char) :
    first_match_idx rules name = none ↔
      ∀ r ∈ rules, glob_matches r.glob name = false := by
  induction rules with
  | nil => simp [first_match_idx]
  | cons r rest ih =>
    rw [first_match_idx]
    by_cases hm : glob_matches r.glob name
    · rw [if_pos hm]
      simp [hm]
    · rw [if_neg hm]
      simp only [Option.map_eq_none', ih, List.forall_mem_cons]
      constructor
      · intro hall
        exact ⟨Bool.eq_false_iff.mpr hm, hall⟩
      · intro hall
        exact hall.2

lemma first_match_idx_lt (rules : List GlobRule) (name : List Char) (i : Nat)
    (h : first_match_idx rules name = some i) : i < rules.length := by
  induction rules generalizing i with
  | nil => cases h
  | cons r rest ih =>
    rw [first_match_idx] at h
    by_cases hm : glob_matches r.glob name
    · rw [if_pos hm] at h
      cases h
      simp
    · rw [if_neg hm] at h
      cases hfm : first_match_idx rest name with
      | none =>
        rw [hfm] at h
        cases h
      | some j =>
        rw [hfm] at h
        cases h
        have := ih j hfm
        simp
        omega

lemma total_matched_inc_at (rules : List GlobRule) (i : Nat) (h : i < rules.length) :
    total_matched (inc_at rules i) = total_matched rules + 1 := by
  induction rules generalizing i with
  | nil => cases h
  | cons r rest ih =>
    cases i with
    | zero =>
      show total_matched ({ r with matched := r.matched + 1 } :: rest)
        = total_matched (r :: rest) + 1
      show r.matched + 1 + total_matched rest = r.matched + total_matched rest + 1
      omega
    | succ j =>
      show total_matched (r :: inc_at rest j) = total_matched (r :: rest) + 1
      show r.matched + total_matched (inc_at rest j) = r.matched + total_matched rest + 1
      rw [ih j (by simpa using Nat.lt_of_succ_lt_succ h)]
      omega

/-- C2: filter resolution for one candidate name: a deny match rejects with
only the first matching deny counter bumped; otherwise a non-empty allow list
accepts exactly when some allow matches, bumping only the first matching
allow counter; an empty allow list accepts by default; and in total exactly
one counter is incremented when the candidate matches any rule, none
otherwise. -/
theorem C2_filter_resolution (denies allows : List GlobRule) (name : List Char) :
    (∀ i, first_match_idx denies name = some i →
        filter_resolve denies allows name = (false, inc_at denies i, allows)) ∧
    (first_match_idx denies name = none → allows ≠ [] →
        ((∀ j, first_match_idx allows name = some j →
            filter_resolve denies allows name = (true, denies, inc_at allows j)) ∧
         (first_match_idx allows name = none →
            filter_resolve denies allows name = (false, denies, allows)))) ∧
    (first_match_idx denies name = none → allows = [] →
        filter_resolve denies allows name = (true, denies, allows)) ∧
    (total_matched (filter_resolve denies allows name).2.1 +
       total_matched (filter_resolve denies allows name).2.2 =
     total_matched denies + total_matched allows +
       (if ∃ r ∈ denies ++ allows, glob_matches r.glob name = true then 1 else 0)) := by
  have hred : first_match_idx denies name = none →
      filter_resolve denies allows name =
        if allows.length ≠ 0 then
          (match scan_globs allows name with
           | some allows' => (true, denies, allows')
           | none => (false, denies, allows))
        else (true, denies, allows) := by
    intro hd
    rw [filter_resolve, scan_globs_eq, hd]
    rfl
  refine ⟨?_, ?_, ?_, ?_⟩
  · intro i hi
    rw [filter_resolve, scan_globs_eq, hi]
    rfl
  · intro hd hne
    have hlen : allows.length ≠ 0 := fun hl => hne (List.length_eq_zero.mp hl)
    constructor
    · intro j hj
      rw [hred hd, if_pos hlen, scan_globs_eq, hj]
      rfl
    · intro ha
      rw [hred hd, if_pos hlen, scan_globs_eq, ha]
      rfl
  · intro hd hae
    subst hae
    rw [hred hd]
    rfl
  · cases hd : first_match_idx denies name with
    | some i =>
      rw [filter_resolve, scan_globs_eq, hd]
      show total_matched (inc_at denies i) + total_matched allows = _
      rw [total_matched_inc_at denies i (first_match_idx_lt denies name i hd)]
      rw [if_pos ?_]
      · omega
      · have : ¬ ∀ r ∈ denies, glob_matches r.glob name = false := by
          intro hall
          rw [← first_match_idx_none_iff denies name] at hall
          rw [hd] at hall
          cases hall
        push_neg at this
        obtain ⟨r, hr, hm⟩ := this
        exact ⟨r, List.mem_append_left _ hr, Bool.not_eq_false _ |>.mp hm⟩
    | none =>
      have hdall := (first_match_idx_none_iff denies name).mp hd
      rw [hred hd]
      by_cases hne : allows.length ≠ 0
      · rw [if_pos hne]
        cases ha : first_match_idx allows name with
        | some j =>
          rw [scan_globs_eq, ha]
          show total_matched denies + total_matched (inc_at allows j) = _
          rw [total_matched_inc_at allows j (first_match_idx_lt allows name j ha)]
          rw [if_pos ?_]
          · omega
          · have : ¬ ∀ r ∈ allows, glob_matches r.glob name = false := by
              intro hall
              rw [← first_match_idx_none_iff allows name] at hall
              rw [ha] at hall
              cases hall
            push_neg at this
            obtain ⟨r, hr, hm⟩ := this
            exact ⟨r, List.mem_append_right _ hr, Bool.not_eq_false _ |>.mp hm⟩
        | none =>
          have haall := (first_match_idx_none_iff allows name).mp ha
          rw [scan_globs_eq, ha]
          show total_matched denies + total_matched allows = _
          rw [if_neg ?_]
          · omega
          · rintro ⟨r, hr, hm⟩
            rcases List.mem_append.mp hr with hr | hr
            · rw [hdall r hr] at hm
              cases hm
            · rw [haall r hr] at hm
              cases hm
      · rw [if_neg hne]
        push_neg at hne
        have hae : allows = [] := List.length_eq_zero.mp hne
        subst hae
        show total_matched denies + total_matched [] = _
        rw [if_neg ?_]
        · omega
        · rintro ⟨r, hr, hm⟩
          rcases List.mem_append.mp hr with hr | hr
          · rw [hdall r hr] at hm
            cases hm
          · cases hr

/-- Witness for C2: a single deny rule "a*" matching the candidate "ab" is
rejected with that rule's counter bumped. -/
theorem C2_witness :
    filter_resolve [{ glob := "a*".toList, matched := 0 }] [] ("ab".toList)
      = (false, [{ glob := "a*".toList, matched := 1 }], []) :=
  (C2_filter_resolution [{ glob := "a*".toList, matched := 0 }] [] ("ab".toList)).1 0 (by decide)

/-! ## Modifier/typedef stripping and ABI compatibility (claims C5, C7) -/

/-- Combined guard of the strip loop. -/
def is_mod_or_typedef (t : btf_type) : Bool := btf_is_mod t || btf_is_typedef t

/-- n-fold dereference along the type field. -/
def chainN (db : Nat → btf_type) : Nat → btf_type → btf_type
  | 0, t => t
  | n + 1, t => chainN db n (db t.typ)

/-- The strip loop, run with some amount of fuel, reaches u. -/
def StripsTo (db : Nat → btf_type) (t u : btf_type) : Prop :=
  ∃ fuel, strip_mod_typedef db fuel t = some u

/-- Spec classification of an acceptable return type: integer, enum, pointer
to void, or pointer to struct/union. -/
def ret_kind_ok (db : Nat → btf_type) (u : btf_type) : Bool :=
  btf_is_int u || btf_is_enum u ||
    (btf_is_ptr u && (decide (u.typ = 0) || btf_is_composite (db u.typ)))

/-- Spec classification of an acceptable parameter type: integer, pointer, or
enum. -/
def arg_kind_ok (u : btf_type) : Bool := btf_is_int u || btf_is_ptr u || btf_is_enum u

lemma strip_zero (db : Nat → btf_type) (t : btf_type) :
    strip_mod_typedef db 0 t =
      if btf_is_mod t || btf_is_typedef t then none else some t := rfl

lemma strip_succ (db : Nat → btf_type) (f : Nat) (t : btf_type) :
    strip_mod_typedef db (f + 1) t =
      if btf_is_mod t || btf_is_typedef t then strip_mod_typedef db f (db t.typ)
      else some t := rfl

lemma strip_not_mod (db : Nat → btf_type) (fuel : Nat) (t : btf_type)
    (hm : ¬ ((btf_is_mod t || btf_is_typedef t) = true)) :
    strip_mod_typedef db fuel t = some t := by
  cases fuel with
  | zero => rw [strip_zero, if_neg hm]
  | succ f => rw [strip_succ, if_neg hm]

lemma strip_mono (db : Nat → btf_type) :
    ∀ fuel fuel' t u, fuel ≤ fuel' → strip_mod_typedef db fuel t = some u →
      strip_mod_typedef db fuel' t = some u := by
  intro fuel
  induction fuel with
  | zero =>
    intro fuel' t u _ h
    rw [strip_zero] at h
    by_cases hm : (btf_is_mod t || btf_is_typedef t) = true
    · rw [if_pos hm] at h
      cases h
    · rw [if_neg hm] at h
      rw [strip_not_mod db fuel' t hm]
      exact h
  | succ f ih =>
    intro fuel' t u hle h
    rw [strip_succ] at h
    by_cases hm : (btf_is_mod t || btf_is_typedef t) = true
    · rw [if_pos hm] at h
      cases fuel' with
      | zero => omega
      | succ f' =>
        rw [strip_succ, if_pos hm]
        exact ih f' (db t.typ) u (by omega) h
    · rw [if_neg hm] at h
      rw [strip_not_mod db fuel' t hm]
      exact h

lemma strip_unique (db : Nat → btf_type) (f f' : Nat) (t u u' : btf_type)
    (h : strip_mod_typedef db f t = some u) (h' : strip_mod_typedef db f' t = some u') :
    u = u' := by
  have h1 := strip_mono db f (max f f') t u (Nat.le_max_left _ _) h
  have h2 := strip_mono db f' (max f f') t u' (Nat.le_max_right _ _) h'
  rw [h1] at h2
  exact Option.some.inj h2

lemma ret_value_eq (db : Nat → btf_type) (u : btf_type) :
    (if btf_is_int u || btf_is_enum u then some true
     else if !btf_is_ptr u then some false
     else if u.typ = 0 then some true
     else if !btf_is_composite (db u.typ) then some false
     else some true) = some (ret_kind_ok db u) := by
  cases u with
  | ptr i =>
    show (if i = 0 then some true
      else if !btf_is_composite (db i) then some false else some true)
      = some (ret_kind_ok db (.ptr i))
    have hrk : ret_kind_ok db (.ptr i) = (decide (i = 0) || btf_is_composite (db i)) := rfl
    by_cases h0 : i = 0
    · subst h0
      rw [if_pos rfl]
      rfl
    · rw [if_neg h0, hrk, decide_eq_false h0, Bool.false_or]
      cases hc : btf_is_composite (db i) with
      | true => rw [show (!true) = false from rfl, if_neg (fun hcon => by cases hcon)]
      | false => rw [show (!false) = true from rfl, if_pos rfl]
  | void => rfl
  | intK => rfl
  | enumK => rfl
  | structK => rfl
  | unionK => rfl
  | modifier i => rfl
  | typedefK i => rfl
  | funcK i => rfl
  | func_proto r ps => rfl
  | otherK => rfl

lemma is_ret_type_ok_char (db : Nat → btf_type) (fuel : Nat) (t : btf_type) (b : Bool)
    (h : is_ret_type_ok db fuel t = some b) :
    b = true ↔ ∃ u, StripsTo db t u ∧ ret_kind_ok db u = true := by
  cases hs : strip_mod_typedef db fuel t with
  | none =>
    simp only [is_ret_type_ok, hs] at h
    cases h
  | some u =>
    simp only [is_ret_type_ok, hs] at h
    rw [ret_value_eq] at h
    have hb : b = ret_kind_ok db u := (Option.some.inj h).symm
    subst hb
    constructor
    · intro hk
      exact ⟨u, ⟨fuel, hs⟩, hk⟩
    · rintro ⟨u', ⟨f', hs'⟩, hk⟩
      rw [strip_unique db fuel f' t u u' hs hs']
      exact hk

lemma arg_value_eq (u : btf_type) :
    (if !btf_is_int u && !btf_is_ptr u && !btf_is_enum u then some false else some true)
      = some (arg_kind_ok u) := by
  cases u <;> rfl

lemma is_arg_type_ok_char (db : Nat → btf_type) (fuel : Nat) (t : btf_type) (b : Bool)
    (h : is_arg_type_ok db fuel t = some b) :
    b = true ↔ ∃ u, StripsTo db t u ∧ arg_kind_ok u = true := by
  cases hs : strip_mod_typedef db fuel t with
  | none =>
    simp only [is_arg_type_ok, hs] at h
    cases h
  | some u =>
    simp only [is_arg_type_ok, hs] at h
    rw [arg_value_eq] at h
    have hb : b = arg_kind_ok u := (Option.some.inj h).symm
    subst hb
    constructor
    · intro hk
      exact ⟨u, ⟨fuel, hs⟩, hk⟩
    · rintro ⟨u', ⟨f', hs'⟩, hk⟩
      rw [strip_unique db fuel f' t u u' hs hs']
      exact hk

lemma func_params_ok_char (db : Nat → btf_type) (fuel : Nat) :
    ∀ (ps : List Nat) (b : Bool), func_params_ok db fuel ps = some b →
      (b = true ↔ ∀ pid ∈ ps, pid ≠ 0 ∧
        ∃ u, StripsTo db (db pid) u ∧ arg_kind_ok u = true) := by
  intro ps
  induction ps with
  | nil =>
    intro b h
    cases h
    simp
  | cons pid rest ih =>
    intro b h
    rw [func_params_ok] at h
    by_cases hp : pid = 0
    · rw [if_pos hp] at h
      cases h
      simp only [List.forall_mem_cons]
      constructor
      · intro hfalse
        cases hfalse
      · rintro ⟨⟨hne, -⟩, -⟩
        exact absurd hp hne
    · rw [if_neg hp] at h
      cases ha : is_arg_type_ok db fuel (db pid) with
      | none =>
        rw [ha] at h
        cases h
      | some av =>
        rw [ha] at h
        cases av with
        | false =>
          cases h
          simp only [List.forall_mem_cons]
          constructor
          · intro hfalse
            cases hfalse
          · rintro ⟨⟨-, hx⟩, -⟩
            exact absurd ((is_arg_type_ok_char db fuel (db pid) false ha).mpr hx) (by simp)
        | true =>
          rw [ih b h]
          simp only [List.forall_mem_cons]
          constructor
          · intro hrest
            exact ⟨⟨hp, (is_arg_type_ok_char db fuel (db pid) true ha).mp rfl⟩, hrest⟩
          · rintro ⟨-, hrest⟩
            exact hrest

/-- C5: the ABI compatibility check accepts a function type exactly when the
parameter count is at most 11, the return type exists (void rejected), the
return type strips to an integer, enum, pointer to void or pointer to
struct/union, and every parameter is non-void (no varargs) and strips to an
integer, pointer or enum.  The hypothesis states that every strip loop the
check runs terminates within the given fuel, which holds for every acyclic
modifier/typedef chain (claim C7). -/
theorem C5_func_type_ok_iff (db : Nat → btf_type) (fuel : Nat) (t : btf_type) (b : Bool)
    (h : is_func_type_ok db fuel t = some b) :
    b = true ↔
      (btf_vlen (db t.typ) ≤ MAX_FUNC_ARG_CNT ∧
       (db t.typ).typ ≠ 0 ∧
       (∃ u, StripsTo db (db (db t.typ).typ) u ∧ ret_kind_ok db u = true) ∧
       (∀ pid ∈ btf_params (db t.typ), pid ≠ 0 ∧
          ∃ u, StripsTo db (db pid) u ∧ arg_kind_ok u = true)) := by
  rw [is_func_type_ok] at h
  by_cases h1 : btf_vlen (db t.typ) > MAX_FUNC_ARG_CNT
  · rw [if_pos h1] at h
    cases h
    constructor
    · intro hfalse
      cases hfalse
    · rintro ⟨hle, -⟩
      omega
  · rw [if_neg h1] at h
    by_cases h2 : (db t.typ).typ = 0
    · rw [if_pos h2] at h
      cases h
      constructor
      · intro hfalse
        cases hfalse
      · rintro ⟨-, hne, -⟩
        exact absurd h2 hne
    · rw [if_neg h2] at h
      cases hr : is_ret_type_ok db fuel (db (db t.typ).typ) with
      | none =>
        rw [hr] at h
        cases h
      | some rv =>
        rw [hr] at h
        cases rv with
        | false =>
          cases h
          constructor
          · intro hfalse
            cases hfalse
          · rintro ⟨-, -, hret, -⟩
            exact absurd ((is_ret_type_ok_char db fuel _ false hr).mpr hret) (by simp)
        | true =>
          rw [func_params_ok_char db fuel _ b h]
          constructor
          · intro hps
            exact ⟨by omega, h2, (is_ret_type_ok_char db fuel _ true hr).mp rfl, hps⟩
          · rintro ⟨-, -, -, hps⟩
            exact hps

/-- Concrete type database for the C5 witness: type 1 is a function whose
prototype (type 2) returns int (type 3) and takes one int parameter. -/
def db5 : Nat → btf_type := fun i =>
  if i = 1 then .funcK 2
  else if i = 2 then .func_proto 3 [3]
  else if i = 3 then .intK
  else .void

/-- Witness for C5: the function type 1 of db5 satisfies all the spec-side
conditions, obtained by applying C5 to the computed acceptance. -/
theorem C5_witness :
    btf_vlen (db5 (db5 1).typ) ≤ MAX_FUNC_ARG_CNT ∧
    (db5 (db5 1).typ).typ ≠ 0 ∧
    (∃ u, StripsTo db5 (db5 (db5 (db5 1).typ).typ) u ∧ ret_kind_ok db5 u = true) ∧
    (∀ pid ∈ btf_params (db5 (db5 1).typ), pid ≠ 0 ∧
       ∃ u, StripsTo db5 (db5 pid) u ∧ arg_kind_ok u = true) :=
  (C5_func_type_ok_iff db5 1 (db5 1) true rfl).mp rfl

/-- C7 (amended): the strip loop terminates exactly on types whose
modifier/typedef chain reaches a non-modifier, non-typedef type after
finitely many dereferences, and then returns that type.  The loop has no
depth bound of its own: a chain that never leaves modifiers/typedefs (for
example a cyclic one, see the counterexample) makes it run forever instead
of being treated as not acceptable. -/
theorem C7_strip_characterization (db : Nat → btf_type) (t u : btf_type) :
    (∃ fuel, strip_mod_typedef db fuel t = some u) ↔
    (∃ n, (∀ m, m < n → is_mod_or_typedef (chainN db m t) = true) ∧
          chainN db n t = u ∧ is_mod_or_typedef u = false) := by
  constructor
  · rintro ⟨fuel, h⟩
    induction fuel generalizing t with
    | zero =>
      rw [strip_zero] at h
      by_cases hm : (btf_is_mod t || btf_is_typedef t) = true
      · rw [if_pos hm] at h
        cases h
      · rw [if_neg hm] at h
        cases h
        exact ⟨0, fun m hm' => absurd hm' (Nat.not_lt_zero m), rfl,
          Bool.eq_false_iff.mpr hm⟩
    | succ f ih =>
      rw [strip_succ] at h
      by_cases hm : (btf_is_mod t || btf_is_typedef t) = true
      · rw [if_pos hm] at h
        obtain ⟨n, hall, hchain, hnm⟩ := ih (db t.typ) h
        refine ⟨n + 1, ?_, hchain, hnm⟩
        intro m hm'
        cases m with
        | zero => exact hm
        | succ m' => exact hall m' (by omega)
      · rw [if_neg hm] at h
        cases h
        exact ⟨0, fun m hm' => absurd hm' (Nat.not_lt_zero m), rfl,
          Bool.eq_false_iff.mpr hm⟩
  · rintro ⟨n, hall, hchain, hnm⟩
    induction n generalizing t with
    | zero =>
      have hu : t = u := hchain
      subst hu
      exact ⟨0, strip_not_mod db 0 t (by
        intro hcon
        rw [show (btf_is_mod t || btf_is_typedef t) = is_mod_or_typedef t from rfl] at hcon
        rw [hnm] at hcon
        cases hcon)⟩
    | succ n' ih =>
      have hm0 : is_mod_or_typedef t = true := hall 0 (by omega)
      obtain ⟨fuel, hf⟩ := ih (db t.typ) (fun m hm' => hall (m + 1) (by omega)) hchain
      refine ⟨fuel + 1, ?_⟩
      have hm0' : (btf_is_mod t || btf_is_typedef t) = true := hm0
      rw [strip_succ, if_pos hm0']
      exact hf

/-- A cyclic type database: type 1 is a typedef of itself. -/
def cyc_db : Nat → btf_type := fun i => if i = 1 then .typedefK 1 else .void

/-- The strip loop never terminates on this type, whatever the fuel. -/
def strip_diverges (db : Nat → btf_type) (t : btf_type) : Prop :=
  ∀ fuel, strip_mod_typedef db fuel t = none

/-- The parameter classification never returns on this type: in particular it
never reports "not acceptable". -/
def arg_check_diverges (db : Nat → btf_type) (t : btf_type) : Prop :=
  ∀ fuel, is_arg_type_ok db fuel t = none

/-- Counterexample to C7 as stated: on the cyclic typedef chain of cyc_db the
strip loop runs forever for every fuel bound, and the argument classification
diverges with it instead of treating the type as not acceptable: the C code
has no bound on the strip loop. -/
theorem C7_counterexample :
    strip_diverges cyc_db (btf_type.typedefK 1) ∧
    arg_check_diverges cyc_db (btf_type.typedefK 1) := by
  have hs : strip_diverges cyc_db (btf_type.typedefK 1) := by
    intro fuel
    induction fuel with
    | zero => rfl
    | succ f ih =>
      show strip_mod_typedef cyc_db (f + 1) (btf_type.typedefK 1) = none
      rw [strip_succ, if_pos (show (btf_is_mod (btf_type.typedefK 1)
        || btf_is_typedef (btf_type.typedefK 1)) = true from rfl)]
      exact ih
  refine ⟨hs, fun fuel => ?_⟩
  simp only [is_arg_type_ok, hs fuel]

/-- Witness for C7 at a one-step modifier chain resolving to int. -/
theorem C7_witness :
    ∃ fuel, strip_mod_typedef db5 fuel (btf_type.modifier 3) = some btf_type.intK :=
  (C7_strip_characterization db5 (btf_type.modifier 3) btf_type.intK).mpr
    ⟨1, fun m hm => by
        have hm0 : m = 0 := by omega
        subst hm0
        rfl,
      rfl, rfl⟩

/-! ## Arity buckets during prepare (claim C6) -/

/-- The arg counts of the accepted entries, in acceptance order. -/
def args_of (att : Att) : List Nat := att.func_infos.map (fun f => f.arg_cnt)

/-- Position (counting from base i) of the first occurrence of k. -/
def first_occ_from (k : Nat) : List Nat → Nat → Option Nat
  | [], _ => none
  | a :: rest, i => if a = k then some i else first_occ_from k rest (i + 1)

/-- The value the 0-means-unset update loop leaves in
func_info_id_for_arg_cnt[k]: the first index ≥ 1 holding k, or 0 when every
occurrence of k (if any) is at index 0. -/
def first_pos_idx (k : Nat) (l : List Nat) : Nat :=
  match first_occ_from k (l.drop 1) 1 with
  | some i => i
  | none => 0

/-- The bucket bookkeeping invariant maintained by the prepare pass. -/
def bucket_inv (att : Att) : Prop :=
  (∀ k, att.func_info_cnts k = (args_of att).count k) ∧
  (∀ k, att.func_info_id_for_arg_cnt k = first_pos_idx k (args_of att))

lemma first_occ_from_append (k a : Nat) :
    ∀ (l : List Nat) (i : Nat), first_occ_from k (l ++ [a]) i =
      match first_occ_from k l i with
      | some j => some j
      | none => if a = k then some (i + l.length) else none := by
  intro l
  induction l with
  | nil =>
    intro i
    show (if a = k then some i else none) = _
    by_cases ha : a = k
    · rw [if_pos ha, if_pos ha]
      rfl
    · rw [if_neg ha, if_neg ha]
      rfl
  | cons b rest ih =>
    intro i
    show (if b = k then some i else first_occ_from k (rest ++ [a]) (i + 1)) = _
    by_cases hb : b = k
    · rw [if_pos hb]
      show some i = _
      rw [show first_occ_from k (b :: rest) i = some i from by
        rw [first_occ_from, if_pos hb]]
    · rw [if_neg hb, ih (i + 1)]
      rw [show first_occ_from k (b :: rest) i = first_occ_from k rest (i + 1) from by
        rw [first_occ_from, if_neg hb]]
      cases first_occ_from k rest (i + 1) with
      | some j => rfl
      | none =>
        show (if a = k then some (i + 1 + rest.length) else none) = _
        by_cases ha : a = k
        · rw [if_pos ha, if_pos ha]
          congr 1
          simp
          omega
        · rw [if_neg ha, if_neg ha]

lemma first_occ_from_ge (k : Nat) :
    ∀ (l : List Nat) (i j : Nat), first_occ_from k l i = some j → i ≤ j := by
  intro l
  induction l with
  | nil =>
    intro i j h
    cases h
  | cons a rest ih =>
    intro i j h
    rw [first_occ_from] at h
    by_cases ha : a = k
    · rw [if_pos ha] at h
      cases h
      omega
    · rw [if_neg ha] at h
      have := ih (i + 1) j h
      omega

lemma first_occ_from_getD (k : Nat) :
    ∀ (l : List Nat) (i j : Nat), first_occ_from k l i = some j →
      j - i < l.length ∧ l.getD (j - i) 0 = k := by
  intro l
  induction l with
  | nil =>
    intro i j h
    cases h
  | cons a rest ih =>
    intro i j h
    rw [first_occ_from] at h
    by_cases ha : a = k
    · rw [if_pos ha] at h
      cases h
      constructor
      · simp
      · rw [Nat.sub_self]
        exact ha
    · rw [if_neg ha] at h
      have hge := first_occ_from_ge k rest (i + 1) j h
      obtain ⟨hlt, hget⟩ := ih (i + 1) j h
      constructor
      · simp
        omega
      · rw [show j - i = (j - (i + 1)) + 1 from by omega]
        show rest.getD (j - (i + 1)) 0 = k
        exact hget

lemma first_occ_from_of_mem (k : Nat) :
    ∀ (l : List Nat) (i : Nat), k ∈ l → first_occ_from k l i ≠ none := by
  intro l
  induction l with
  | nil =>
    intro i h
    cases h
  | cons a rest ih =>
    intro i hmem
    rw [first_occ_from]
    by_cases ha : a = k
    · rw [if_pos ha]
      intro hc
      cases hc
    · rw [if_neg ha]
      rcases List.mem_cons.mp hmem with h | h
      · exact absurd h.symm ha
      · exact ih (i + 1) h

lemma first_pos_spec (k : Nat) (l : List Nat) (hc : 0 < l.count k) :
    first_pos_idx k l < l.length ∧ l.getD (first_pos_idx k l) 0 = k := by
  cases l with
  | nil => cases hc
  | cons b t =>
    rw [first_pos_idx, show List.drop 1 (b :: t) = t from rfl]
    cases hf : first_occ_from k t 1 with
    | some j =>
      show j < (b :: t).length ∧ (b :: t).getD j 0 = k
      have hge := first_occ_from_ge k t 1 j hf
      obtain ⟨hlt, hget⟩ := first_occ_from_getD k t 1 j hf
      constructor
      · simp
        omega
      · cases j with
        | zero => omega
        | succ j' =>
          show t.getD j' 0 = k
          rw [show j' = j' + 1 - 1 from by omega]
          exact hget
    | none =>
      show 0 < (b :: t).length ∧ (b :: t).getD 0 0 = k
      constructor
      · simp
      · show b = k
        by_contra hbk
        have hkb : ¬ (k = b) := fun he => hbk he.symm
        have hmem : k ∈ t := by
          have hin : k ∈ b :: t := List.count_pos_iff.mp hc
          rcases List.mem_cons.mp hin with h | h
          · exact absurd h hkb
          · exact h
        exact first_occ_from_of_mem k t 1 hmem hf

lemma args_of_accept (att : Att) (id addr : Nat) (fname : List Char) (ac : Nat) :
    args_of (accept_func att id addr fname ac) = args_of att ++ [ac] := by
  have hfi : (accept_func att id addr fname ac).func_infos
      = att.func_infos ++ [FuncInfo.mk addr fname ac id 0 0] := rfl
  rw [args_of, hfi, List.map_append]
  rfl

lemma accept_func_id (att : Att) (id addr : Nat) (fname : List Char) (ac k : Nat) :
    (accept_func att id addr fname ac).func_info_id_for_arg_cnt k =
      if att.func_info_id_for_arg_cnt ac = 0 then
        (if k = ac then att.func_infos.length else att.func_info_id_for_arg_cnt k)
      else att.func_info_id_for_arg_cnt k := by
  show (if att.func_info_id_for_arg_cnt ac = 0 then
      fun k => if k = ac then att.func_infos.length else att.func_info_id_for_arg_cnt k
    else att.func_info_id_for_arg_cnt) k = _
  by_cases h0 : att.func_info_id_for_arg_cnt ac = 0
  · rw [if_pos h0, if_pos h0]
  · rw [if_neg h0, if_neg h0]

lemma first_pos_idx_append_nil (k ac : Nat) : first_pos_idx k ([] ++ [ac]) = 0 := rfl

lemma first_pos_idx_append_cons (k ac b : Nat) (t : List Nat) :
    first_pos_idx k ((b :: t) ++ [ac]) =
      match first_occ_from k t 1 with
      | some j => j
      | none => if ac = k then 1 + t.length else 0 := by
  rw [first_pos_idx, show List.drop 1 ((b :: t) ++ [ac]) = t ++ [ac] from rfl,
    first_occ_from_append k ac t 1]
  cases hf : first_occ_from k t 1 with
  | some j => rfl
  | none =>
    show (match (if ac = k then some (1 + t.length) else none) with
      | some i => i
      | none => 0) = if ac = k then 1 + t.length else 0
    by_cases ha : ac = k
    · rw [if_pos ha, if_pos ha]
    · rw [if_neg ha, if_neg ha]

lemma accept_preserves (att : Att) (id addr : Nat) (fname : List Char) (ac : Nat)
    (hinv : bucket_inv att) : bucket_inv (accept_func att id addr fname ac) := by
  obtain ⟨hcnt, hid⟩ := hinv
  constructor
  · intro k
    rw [args_of_accept]
    show (if k = ac then att.func_info_cnts ac + 1 else att.func_info_cnts k) = _
    rw [List.count_append]
    by_cases hk : k = ac
    · subst hk
      rw [if_pos rfl, hcnt k]
      simp
    · rw [if_neg hk, hcnt k]
      have h1 : [ac].count k = 0 := by
        rw [List.count_singleton']
        exact if_neg (fun he => hk he.symm)
      rw [h1]
      omega
  · intro k
    rw [accept_func_id, args_of_accept]
    have hlen : att.func_infos.length = (args_of att).length := by
      rw [args_of, List.length_map]
    cases hargs : args_of att with
    | nil =>
      rw [first_pos_idx_append_nil]
      have hid0 : ∀ k', att.func_info_id_for_arg_cnt k' = 0 := by
        intro k'
        rw [hid k', hargs]
        rfl
      rw [if_pos (hid0 ac)]
      have hl0 : att.func_infos.length = 0 := by
        rw [hlen, hargs]
        rfl
      by_cases hk : k = ac
      · rw [if_pos hk, hl0]
      · rw [if_neg hk, hid0 k]
    | cons b t =>
      rw [first_pos_idx_append_cons]
      have hidk : att.func_info_id_for_arg_cnt k =
          (match first_occ_from k t 1 with
           | some j => j
           | none => 0) := by
        rw [hid k, hargs, first_pos_idx, show List.drop 1 (b :: t) = t from rfl]
      have hlenbt : att.func_infos.length = 1 + t.length := by
        rw [hlen, hargs, List.length_cons]
        omega
      by_cases hk : k = ac
      · subst hk
        by_cases h0 : att.func_info_id_for_arg_cnt k = 0
        · rw [if_pos h0, if_pos rfl]
          cases hf : first_occ_from k t 1 with
          | some j =>
            exfalso
            rw [hf] at hidk
            have hge := first_occ_from_ge k t 1 j hf
            have hj : j = 0 := hidk.symm.trans h0
            omega
          | none =>
            show att.func_infos.length = if k = k then 1 + t.length else 0
            rw [if_pos rfl]
            exact hlenbt
        · rw [if_neg h0]
          cases hf : first_occ_from k t 1 with
          | some j =>
            rw [hf] at hidk
            exact hidk
          | none =>
            exfalso
            rw [hf] at hidk
            exact h0 hidk
      · have hnew : (if att.func_info_id_for_arg_cnt ac = 0 then
            (if k = ac then att.func_infos.length else att.func_info_id_for_arg_cnt k)
          else att.func_info_id_for_arg_cnt k) = att.func_info_id_for_arg_cnt k := by
          by_cases h0 : att.func_info_id_for_arg_cnt ac = 0
          · rw [if_pos h0, if_neg hk]
          · rw [if_neg h0]
        rw [hnew, hidk]
        cases hf : first_occ_from k t 1 with
        | some j => rfl
        | none =>
          show (0 : Nat) = if ac = k then 1 + t.length else 0
          rw [if_neg (fun he => hk he.symm)]

lemma prepare_step_preserves (env : Env) (fuel : Nat) (att : Att) (i : Nat)
    (b : Bool) (att' : Att) (h : prepare_step env fuel att i = some (b, att'))
    (hinv : bucket_inv att) : bucket_inv att' := by
  simp only [prepare_step] at h
  split at h
  · cases h
    exact hinv
  · split at h
    · cases h
      exact hinv
    · split at h
      · cases h
        exact hinv
      · split at h
        · cases h
          exact hinv
        · split at h
          · cases h
          · cases h
            exact hinv
          · split at h
            · cases h
              exact hinv
            · split at h
              · cases h
                exact hinv
              · cases h
                exact accept_preserves _ _ _ _ _ hinv

lemma prepare_pass_preserves (env : Env) (fuel : Nat) :
    ∀ (ids : List Nat) (att att' : Att), bucket_inv att →
      prepare_pass env fuel att ids = some att' → bucket_inv att' := by
  intro ids
  induction ids with
  | nil =>
    intro att att' hinv h
    cases h
    exact hinv
  | cons i rest ih =>
    intro att att' hinv h
    rw [prepare_pass] at h
    cases hstep : prepare_step env fuel att i with
    | none =>
      rw [hstep] at h
      cases h
    | some p =>
      rw [hstep] at h
      obtain ⟨b, att1⟩ := p
      have hinv1 := prepare_step_preserves env fuel att i b att1 hstep hinv
      cases b with
      | true =>
        cases h
        exact hinv1
      | false =>
        exact ih att1 att' hinv1 h

/-- C6 (amended): after the prepare pass from a pristine attacher,
func_info_cnts[k] counts the accepted entries of arity k, and for every arity
with a positive count, func_info_id_for_arg_cnt[k] references an entry whose
arg_cnt is k.  Because the code uses 0 both as "unset" and as a valid index,
the recorded index is the first index ≥ 1 holding arity k when one exists
(and 0 otherwise) — not necessarily the index of the first accepted entry of
that arity. -/
theorem C6_bucket_characterization (env : Env) (fuel : Nat) (att att' : Att)
    (ids : List Nat)
    (h0 : att.func_infos = [] ∧ att.func_info_cnts = (fun _ => 0) ∧
          att.func_info_id_for_arg_cnt = (fun _ => 0))
    (h : prepare_pass env fuel att ids = some att') :
    (∀ k, att'.func_info_cnts k = (args_of att').count k) ∧
    (∀ k, att'.func_info_id_for_arg_cnt k = first_pos_idx k (args_of att')) ∧
    (∀ k, 0 < att'.func_info_cnts k →
        att'.func_info_id_for_arg_cnt k < att'.func_infos.length ∧
        (args_of att').getD (att'.func_info_id_for_arg_cnt k) 0 = k) := by
  have hinv0 : bucket_inv att := by
    constructor
    · intro k
      rw [h0.2.1, args_of, h0.1]
      rfl
    · intro k
      rw [h0.2.2, args_of, h0.1]
      rfl
  have hinv := prepare_pass_preserves env fuel ids att att' hinv0 h
  obtain ⟨hcnt, hid⟩ := hinv
  refine ⟨hcnt, hid, ?_⟩
  intro k hpos
  rw [hcnt k] at hpos
  have hspec := first_pos_spec k (args_of att') hpos
  rw [hid k]
  have hlen : (args_of att').length = att'.func_infos.length := by
    rw [args_of, List.length_map]
  rw [← hlen]
  exact hspec

/-- Type database for the C6 counterexample: ids 1 and 2 are functions
sharing prototype 3, which takes two int (id 4) parameters and returns
int. -/
def env6 : Env :=
  { nr_types := 4,
    type_by_id := fun i =>
      if i = 1 then .funcK 3
      else if i = 2 then .funcK 3
      else if i = 3 then .func_proto 4 [4, 4]
      else if i = 4 then .intK
      else .void,
    name_of := fun i => if i = 1 then "fa".toList else "fb".toList,
    ksym_addr := fun _ => some 100,
    kprobe_ok := fun _ => true }

/-- Counterexample to C6 as stated: both accepted entries have arity 2, the
first at index 0, yet the bucket stores first_index = 1 — because index 0 is
indistinguishable from the calloc "unset" marker, the second entry of the
same arity overwrites it. -/
theorem C6_counterexample :
    (prepare_pass env6 1 (att_zero {}) (List.range' 1 4)).map
        (fun a => (args_of a, a.func_info_id_for_arg_cnt 2)) = some ([2, 2], 1) := by
  decide

/-- The attacher state produced by the C6 counterexample run. -/
def att6 : Att := (prepare_pass env6 1 (att_zero {}) (List.range' 1 4)).getD (att_zero {})

/-- Witness for C6 on the same concrete run: the stored index references an
entry of the right arity. -/
theorem C6_witness :
    att6.func_info_id_for_arg_cnt 2 < att6.func_infos.length ∧
    (args_of att6).getD (att6.func_info_id_for_arg_cnt 2) 0 = 2 :=
  (C6_bucket_characterization env6 1 (att_zero {}) att6 (List.range' 1 4)
    ⟨rfl, rfl, rfl⟩ rfl).2.2 2 (by decide)

/-! ## Empty result set after prepare (claim C9) -/

/-- C9: when the type-database pass accepts no function, prepare fails with
-ENOENT (-2); when it accepts at least one, prepare does not fail for this
reason. -/
theorem C9_empty_result (env : Env) (fuel : Nat) (att att' : Att)
    (h : prepare_pass env fuel att (List.range' 1 env.nr_types) = some att') :
    (att'.func_infos.length = 0 →
      mass_attacher__prepare env fuel att = some (Except.error (-2))) ∧
    (att'.func_infos.length ≠ 0 →
      mass_attacher__prepare env fuel att = some (Except.ok att')) := by
  constructor
  · intro hz
    rw [mass_attacher__prepare, h]
    show (if att'.func_infos.length = 0 then some (Except.error (-2))
      else some (Except.ok att')) = some (Except.error (-2))
    rw [if_pos hz]
  · intro hnz
    rw [mass_attacher__prepare, h]
    show (if att'.func_infos.length = 0 then some (Except.error (-2))
      else some (Except.ok att')) = some (Except.ok att')
    rw [if_neg hnz]

/-- Environment with an empty type database for the C9 witness. -/
def env9 : Env :=
  { nr_types := 0,
    type_by_id := fun _ => .void,
    name_of := fun _ => [],
    ksym_addr := fun _ => none,
    kprobe_ok := fun _ => false }

/-- Witness for C9: with no types at all, prepare returns -ENOENT. -/
theorem C9_witness :
    mass_attacher__prepare env9 1 (att_zero {}) = some (Except.error (-2)) :=
  (C9_empty_result env9 1 (att_zero {}) (att_zero {}) rfl).1 rfl

/-! ## Clone accounting during load (claim C8) -/

lemma length_flatMap_pair {α β : Type} (g1 g2 : α → β) (l : List α) :
    (l.flatMap (fun f => [g1 f, g2 f])).length = 2 * l.length := by
  induction l with
  | nil => rfl
  | cons a t ih =>
    show (g1 a :: g2 a :: t.flatMap (fun f => [g1 f, g2 f])).length = 2 * (t.length + 1)
    rw [List.length_cons, List.length_cons, ih]
    omega

lemma load_loop_char (att : Att) (cloneFn : CloneCall → Int) :
    ∀ (l fs : List FuncInfo) (calls : List CloneCall),
      load_loop att cloneFn l = Except.ok (fs, calls) →
      calls = l.flatMap (fun f =>
        [{ prog_type := (att.fentries f.arg_cnt).prog_type,
           expected_attach_type := (att.fentries f.arg_cnt).expected_attach_type,
           name := (att.fentries f.arg_cnt).name,
           insns := att.fentries_insns f.arg_cnt,
           insns_cnt := att.fentries_insn_cnts f.arg_cnt,
           license := "Dual BSD/GPL".toList,
           attach_btf_id := f.btf_id },
         { prog_type := (att.fexits f.arg_cnt).prog_type,
           expected_attach_type := (att.fexits f.arg_cnt).expected_attach_type,
           name := (att.fexits f.arg_cnt).name,
           insns := att.fexits_insns f.arg_cnt,
           insns_cnt := att.fexits_insn_cnts f.arg_cnt,
           license := "Dual BSD/GPL".toList,
           attach_btf_id := f.btf_id }]) ∧
      (∀ c ∈ calls, 0 ≤ cloneFn c) := by
  intro l
  induction l with
  | nil =>
    intro fs calls h
    cases h
    exact ⟨rfl, fun c hc => absurd hc (List.not_mem_nil c)⟩
  | cons f rest ih =>
    intro fs calls h
    simp only [load_loop, clone_prog] at h
    split at h
    · cases h
    · split at h
      · cases h
      · rename_i h1 h2
        cases hrec : load_loop att cloneFn rest with
        | error e =>
          simp only [hrec] at h
          cases h
        | ok p =>
          obtain ⟨fs', calls'⟩ := p
          simp only [hrec] at h
          cases h
          obtain ⟨ihc, ihs⟩ := ih fs' calls' hrec
          constructor
          · rw [ihc]
            rfl
          · intro c hc
            rcases List.mem_cons.mp hc with hc1 | hc
            · subst hc1
              exact Int.not_lt.mp h1
            · rcases List.mem_cons.mp hc with hc2 | hc
              · subst hc2
                exact Int.not_lt.mp h2
              · exact ihs c hc

/-- C8 (amended): a successful load performs exactly 2 × func_count clone
calls — the fentry then fexit clone of each attach entry, in entry order —
each built from the prototype of the entry's arity (program type, expected
attach type, name), the bytecode captured for that arity bucket, license
"Dual BSD/GPL", and attach_btf_id equal to that entry's type id.  The two
calls of one entry share its id; across entries the ids are the entries'
respective (distinct) type ids, rather than all 2N ids being pairwise
distinct.  A negative clone result would have made the whole load return
that error, so success means every performed call succeeded. -/
theorem C8_load_clone_calls (att : Att) (cloneFn : CloneCall → Int)
    (att' : Att) (calls : List CloneCall)
    (h : mass_attacher__load att cloneFn = Except.ok (att', calls)) :
    calls.length = 2 * att.func_infos.length ∧
    calls = att.func_infos.flatMap (fun f =>
      [{ prog_type := (att.fentries f.arg_cnt).prog_type,
         expected_attach_type := (att.fentries f.arg_cnt).expected_attach_type,
         name := (att.fentries f.arg_cnt).name,
         insns := att.fentries_insns f.arg_cnt,
         insns_cnt := att.fentries_insn_cnts f.arg_cnt,
         license := "Dual BSD/GPL".toList,
         attach_btf_id := f.btf_id },
       { prog_type := (att.fexits f.arg_cnt).prog_type,
         expected_attach_type := (att.fexits f.arg_cnt).expected_attach_type,
         name := (att.fexits f.arg_cnt).name,
         insns := att.fexits_insns f.arg_cnt,
         insns_cnt := att.fexits_insn_cnts f.arg_cnt,
         license := "Dual BSD/GPL".toList,
         attach_btf_id := f.btf_id }]) ∧
    calls.map (fun c => c.attach_btf_id)
      = att.func_infos.flatMap (fun f => [f.btf_id, f.btf_id]) ∧
    (∀ c ∈ calls, 0 ≤ cloneFn c) := by
  cases hrec : load_loop att cloneFn att.func_infos with
  | error e =>
    rw [mass_attacher__load] at h
    simp only [hrec] at h
    cases h
  | ok p =>
    obtain ⟨fs, cs⟩ := p
    rw [mass_attacher__load] at h
    simp only [hrec] at h
    have hpair := Except.ok.inj h
    have hcalls : calls = cs := (congrArg Prod.snd hpair).symm
    subst hcalls
    obtain ⟨hc, hs⟩ := load_loop_char att cloneFn att.func_infos fs calls hrec
    refine ⟨?_, hc, ?_, hs⟩
    · rw [hc, length_flatMap_pair]
    · rw [hc, List.map_flatMap]
      rfl

/-- Concrete attacher for the C8 counterexample and witness: one accepted
entry with type id 7 and arity 0. -/
def att8 : Att :=
  { skel := {},
    fentries := fun _ =>
      { prog_type := 1, expected_attach_type := 2, name := "fentry0".toList },
    fexits := fun _ =>
      { prog_type := 1, expected_attach_type := 2, name := "fexit0".toList },
    fentries_insns := fun _ => [5],
    fexits_insns := fun _ => [6],
    fentries_insn_cnts := fun _ => 1,
    fexits_insn_cnts := fun _ => 1,
    func_infos := [{ addr := 10, name := "f".toList, arg_cnt := 0, btf_id := 7 }] }

/-- Counterexample to C8 as stated: with one attach entry, load performs
exactly two clone calls (2 × func_count holds) but both carry attach target
id 7 — the fentry and fexit clones of one entry share its type id, so the 2N
calls do not each supply a distinct attach_target_id. -/
theorem C8_counterexample :
    (mass_attacher__load att8 (fun _ => 3)).toOption.map
        (fun p => (p.2.length, p.2.map (fun c => c.attach_btf_id))) = some (2, [7, 7]) := by
  decide

/-- The attacher and call trace the counterexample run produces. -/
def att8' : Att :=
  { att8 with func_infos :=
      [{ addr := 10, name := "f".toList, arg_cnt := 0, btf_id := 7,
         fentry_prog_fd := 3, fexit_prog_fd := 3 }] }

/-- The two clone calls of the C8 witness run. -/
def calls8 : List CloneCall :=
  [{ prog_type := 1, expected_attach_type := 2, name := "fentry0".toList,
     insns := [5], insns_cnt := 1, license := "Dual BSD/GPL".toList,
     attach_btf_id := 7 },
   { prog_type := 1, expected_attach_type := 2, name := "fexit0".toList,
     insns := [6], insns_cnt := 1, license := "Dual BSD/GPL".toList,
     attach_btf_id := 7 }]

/-- Witness for C8 at the concrete one-entry attacher. -/
theorem C8_witness : calls8.length = 2 * att8.func_infos.length :=
  (C8_load_clone_calls att8 (fun _ => 3) att8' calls8 rfl).1

end MassAttacher
